import Mathlib

/-!
Shallow embedding of the QUIC-Multiplexing-Simulation repository
(`QUIC_API.py`, `StreamIn.py`, `StreamOut.py`, `QuicClient.py`) and proofs
of the specification's testable properties against it.

Conventions of the embedding:
* Python `bytes` values are `List Nat` with every element a byte value.
* Python `str` values are `List Nat` of Unicode code points.
* Python `int` is `Int`; Python floats that only ever hold wall-clock
  differences and rates are modelled as exact rationals `Rat`.
* `str.encode()` / `bytes.decode('utf-8')` are modelled by an explicit
  UTF-8 encoder/decoder over code points (the decoder is written with a
  fuel argument so that it is structurally recursive and computes; fuel
  equal to the input length always suffices, one byte of fuel per
  decoded character).
* Raised exceptions are modelled with `Except`/`Option`.
-/

namespace QuicSim

/-- UTF-8 encoding of a single code point (the byte sequence produced by
Python's `str.encode('utf-8')` for one character). -/
def utf8EncodeCp (c : Nat) : List Nat :=
  if c < 0x80 then [c]
  else if c < 0x800 then [0xC0 + c / 64, 0x80 + c % 64]
  else if c < 0x10000 then
    [0xE0 + c / 4096, 0x80 + (c / 64) % 64, 0x80 + c % 64]
  else
    [0xF0 + c / 262144, 0x80 + (c / 4096) % 64, 0x80 + (c / 64) % 64, 0x80 + c % 64]

/-- `str.encode('utf-8')`: encode a sequence of code points. -/
def utf8Encode (s : List Nat) : List Nat := (s.map utf8EncodeCp).flatten

/-- A code point Python can hold in a str and encode: a Unicode scalar value
(below 0x110000 and not a surrogate). -/
def ValidCp (c : Nat) : Prop := c < 0x110000 ∧ (c < 0xD800 ∨ 0xE000 ≤ c)

instance (c : Nat) : Decidable (ValidCp c) := by unfold ValidCp; infer_instance

/-- Fuelled strict UTF-8 decoder (continuation-byte, overlong, surrogate and
range checks as in CPython's strict decoder); consumes one unit of fuel per
decoded character. -/
def utf8DecodeGo : Nat → List Nat → Option (List Nat)
  | _, [] => some []
  | 0, _ :: _ => none
  | fuel + 1, b :: rest =>
    if b < 0x80 then (utf8DecodeGo fuel rest).map (fun s => b :: s)
    else if b < 0xC2 then none
    else if b < 0xE0 then
      match rest with
      | b1 :: rest1 =>
        if 0x80 ≤ b1 ∧ b1 < 0xC0 then
          (utf8DecodeGo fuel rest1).map (fun s => ((b - 0xC0) * 64 + (b1 - 0x80)) :: s)
        else none
      | [] => none
    else if b < 0xF0 then
      match rest with
      | b1 :: b2 :: rest2 =>
        if (if b = 0xE0 then 0xA0 ≤ b1 ∧ b1 < 0xC0
            else if b = 0xED then 0x80 ≤ b1 ∧ b1 < 0xA0
            else 0x80 ≤ b1 ∧ b1 < 0xC0) ∧ (0x80 ≤ b2 ∧ b2 < 0xC0) then
          (utf8DecodeGo fuel rest2).map
            (fun s => ((b - 0xE0) * 4096 + (b1 - 0x80) * 64 + (b2 - 0x80)) :: s)
        else none
      | _ => none
    else if b < 0xF5 then
      match rest with
      | b1 :: b2 :: b3 :: rest3 =>
        if (if b = 0xF0 then 0x90 ≤ b1 ∧ b1 < 0xC0
            else if b = 0xF4 then 0x80 ≤ b1 ∧ b1 < 0x90
            else 0x80 ≤ b1 ∧ b1 < 0xC0) ∧ (0x80 ≤ b2 ∧ b2 < 0xC0) ∧
            (0x80 ≤ b3 ∧ b3 < 0xC0) then
          (utf8DecodeGo fuel rest3).map
            (fun s => ((b - 0xF0) * 262144 + (b1 - 0x80) * 4096 +
                       (b2 - 0x80) * 64 + (b3 - 0x80)) :: s)
        else none
      | _ => none
    else none

/-- `bytes.decode('utf-8')`: `none` models a raised `UnicodeDecodeError`. -/
def utf8Decode (l : List Nat) : Option (List Nat) := utf8DecodeGo l.length l

theorem utf8DecodeGo_nil (fuel : Nat) : utf8DecodeGo fuel [] = some [] := by
  cases fuel <;> rfl

/-- Decoding after encoding one valid code point peels off exactly that
code point (one unit of fuel consumed). -/
theorem utf8DecodeGo_encodeCp_append (c : Nat) (h : ValidCp c) (fuel : Nat)
    (rest : List Nat) :
    utf8DecodeGo (fuel + 1) (utf8EncodeCp c ++ rest) =
      (utf8DecodeGo fuel rest).map (fun s => c :: s) := by
  obtain ⟨hlt, hsur⟩ := h
  by_cases h1 : c < 0x80
  · simp only [utf8EncodeCp, if_pos h1, List.cons_append, List.nil_append, utf8DecodeGo]
  · by_cases h2 : c < 0x800
    · simp only [utf8EncodeCp, if_neg h1, if_pos h2, List.cons_append, List.nil_append,
        utf8DecodeGo]
      have hb0 : ¬ (0xC0 + c / 64 < 0x80) := by omega
      have hb1 : ¬ (0xC0 + c / 64 < 0xC2) := by omega
      have hb2 : 0xC0 + c / 64 < 0xE0 := by omega
      have hc1 : 0x80 ≤ 0x80 + c % 64 ∧ 0x80 + c % 64 < 0xC0 := by omega
      rw [if_neg hb0, if_neg hb1, if_pos hb2, if_pos hc1]
      have : (0xC0 + c / 64 - 0xC0) * 64 + (0x80 + c % 64 - 0x80) = c := by omega
      rw [this]
    · by_cases h3 : c < 0x10000
      · simp only [utf8EncodeCp, if_neg h1, if_neg h2, if_pos h3, List.cons_append,
          List.nil_append, utf8DecodeGo]
        have hb0 : ¬ (0xE0 + c / 4096 < 0x80) := by omega
        have hb1 : ¬ (0xE0 + c / 4096 < 0xC2) := by omega
        have hb2 : ¬ (0xE0 + c / 4096 < 0xE0) := by omega
        have hb3 : 0xE0 + c / 4096 < 0xF0 := by omega
        rw [if_neg hb0, if_neg hb1, if_neg hb2, if_pos hb3]
        have hcond : (if 0xE0 + c / 4096 = 0xE0 then
              0xA0 ≤ 0x80 + c / 64 % 64 ∧ 0x80 + c / 64 % 64 < 0xC0
            else if 0xE0 + c / 4096 = 0xED then
              0x80 ≤ 0x80 + c / 64 % 64 ∧ 0x80 + c / 64 % 64 < 0xA0
            else 0x80 ≤ 0x80 + c / 64 % 64 ∧ 0x80 + c / 64 % 64 < 0xC0) ∧
            (0x80 ≤ 0x80 + c % 64 ∧ 0x80 + c % 64 < 0xC0) := by
          constructor
          · by_cases he : 0xE0 + c / 4096 = 0xE0
            · rw [if_pos he]; omega
            · rw [if_neg he]
              by_cases hd : 0xE0 + c / 4096 = 0xED
              · rw [if_pos hd]; omega
              · rw [if_neg hd]; omega
          · omega
        rw [if_pos hcond]
        have : (0xE0 + c / 4096 - 0xE0) * 4096 + (0x80 + c / 64 % 64 - 0x80) * 64 +
            (0x80 + c % 64 - 0x80) = c := by omega
        rw [this]
      · simp only [utf8EncodeCp, if_neg h1, if_neg h2, if_neg h3, List.cons_append,
          List.nil_append, utf8DecodeGo]
        have hb0 : ¬ (0xF0 + c / 262144 < 0x80) := by omega
        have hb1 : ¬ (0xF0 + c / 262144 < 0xC2) := by omega
        have hb2 : ¬ (0xF0 + c / 262144 < 0xE0) := by omega
        have hb3 : ¬ (0xF0 + c / 262144 < 0xF0) := by omega
        have hb4 : 0xF0 + c / 262144 < 0xF5 := by omega
        rw [if_neg hb0, if_neg hb1, if_neg hb2, if_neg hb3, if_pos hb4]
        have hcond : (if 0xF0 + c / 262144 = 0xF0 then
              0x90 ≤ 0x80 + c / 4096 % 64 ∧ 0x80 + c / 4096 % 64 < 0xC0
            else if 0xF0 + c / 262144 = 0xF4 then
              0x80 ≤ 0x80 + c / 4096 % 64 ∧ 0x80 + c / 4096 % 64 < 0x90
            else 0x80 ≤ 0x80 + c / 4096 % 64 ∧ 0x80 + c / 4096 % 64 < 0xC0) ∧
            (0x80 ≤ 0x80 + c / 64 % 64 ∧ 0x80 + c / 64 % 64 < 0xC0) ∧
            (0x80 ≤ 0x80 + c % 64 ∧ 0x80 + c % 64 < 0xC0) := by
          refine ⟨?_, by omega, by omega⟩
          by_cases he : 0xF0 + c / 262144 = 0xF0
          · rw [if_pos he]; omega
          · rw [if_neg he]
            by_cases hd : 0xF0 + c / 262144 = 0xF4
            · rw [if_pos hd]; omega
            · rw [if_neg hd]; omega
        rw [if_pos hcond]
        have : (0xF0 + c / 262144 - 0xF0) * 262144 + (0x80 + c / 4096 % 64 - 0x80) * 4096 +
            (0x80 + c / 64 % 64 - 0x80) * 64 + (0x80 + c % 64 - 0x80) = c := by omega
        rw [this]

theorem utf8DecodeGo_encode (s : List Nat) (h : ∀ c ∈ s, ValidCp c) :
    ∀ fuel, s.length ≤ fuel → utf8DecodeGo fuel (utf8Encode s) = some s := by
  induction s with
  | nil => intro fuel _; exact utf8DecodeGo_nil fuel
  | cons c cs ih =>
    intro fuel hfuel
    obtain ⟨fuel', rfl⟩ : ∃ f, fuel = f + 1 := by
      cases fuel with
      | zero => simp at hfuel
      | succ f => exact ⟨f, rfl⟩
    have hc : ValidCp c := h c (List.mem_cons_self c cs)
    have hcs : ∀ x ∈ cs, ValidCp x := fun x hx => h x (List.mem_cons_of_mem c hx)
    have hlen : cs.length ≤ fuel' := by
      simp only [List.length_cons] at hfuel; omega
    have hsplit : utf8Encode (c :: cs) = utf8EncodeCp c ++ utf8Encode cs := by
      simp [utf8Encode]
    rw [hsplit, utf8DecodeGo_encodeCp_append c hc fuel' (utf8Encode cs),
      ih hcs fuel' hlen]
    rfl

theorem one_le_length_utf8EncodeCp (c : Nat) : 1 ≤ (utf8EncodeCp c).length := by
  unfold utf8EncodeCp
  split
  · simp
  · split
    · simp
    · split <;> simp

theorem length_le_length_utf8Encode (s : List Nat) : s.length ≤ (utf8Encode s).length := by
  induction s with
  | nil => simp [utf8Encode]
  | cons c cs ih =>
    have hsplit : utf8Encode (c :: cs) = utf8EncodeCp c ++ utf8Encode cs := by
      simp [utf8Encode]
    rw [hsplit, List.length_append, List.length_cons]
    have h1 := one_le_length_utf8EncodeCp c
    omega

/-- `s.encode('utf-8').decode('utf-8') == s` for every encodable str. -/
theorem utf8Decode_utf8Encode (s : List Nat) (h : ∀ c ∈ s, ValidCp c) :
    utf8Decode (utf8Encode s) = some s :=
  utf8DecodeGo_encode s h (utf8Encode s).length (length_le_length_utf8Encode s)

/-- A list of pure-ASCII bytes decodes to itself. -/
theorem utf8Decode_ascii (l : List Nat) (h : ∀ b ∈ l, b < 0x80) :
    utf8Decode l = some l := by
  have go : ∀ fuel (m : List Nat), m.length ≤ fuel → (∀ b ∈ m, b < 0x80) →
      utf8DecodeGo fuel m = some m := by
    intro fuel
    induction fuel with
    | zero =>
      intro m hm _
      have : m = [] := List.length_eq_zero.mp (Nat.le_zero.mp hm)
      subst this; rfl
    | succ f ih =>
      intro m hm hascii
      cases m with
      | nil => exact utf8DecodeGo_nil _
      | cons b rest =>
        have hb : b < 0x80 := hascii b (List.mem_cons_self b rest)
        show utf8DecodeGo (f + 1) (b :: rest) = _
        simp only [utf8DecodeGo, if_pos hb]
        rw [ih rest (by simp only [List.length_cons] at hm; omega)
            (fun x hx => hascii x (List.mem_cons_of_mem b hx))]
        rfl
  exact go l.length l (le_refl _) h

/-- Fuelled digit expansion (one unit of fuel per extra digit; fuel `n`
always suffices for `n` itself). -/
def natToDigitsGo : Nat → Nat → List Nat
  | 0, n => [48 + n % 10]
  | fuel + 1, n =>
    if n < 10 then [48 + n] else natToDigitsGo fuel (n / 10) ++ [48 + n % 10]

/-- Decimal digits (as code points) of a natural number, most significant
first: `str(n)` for `n ≥ 0`. -/
def natToDigits (n : Nat) : List Nat := natToDigitsGo n n

theorem natToDigitsGo_small (fuel n : Nat) (h : n < 10) (hf : n ≤ fuel) :
    natToDigitsGo fuel n = [48 + n] := by
  cases fuel with
  | zero =>
    have : n = 0 := by omega
    subst this
    rfl
  | succ f => exact if_pos h

theorem natToDigitsGo_big (fuel n : Nat) (h : ¬ n < 10) (hf : n ≤ fuel) :
    natToDigitsGo fuel n = natToDigitsGo (fuel - 1) (n / 10) ++ [48 + n % 10] := by
  cases fuel with
  | zero => omega
  | succ f => exact if_neg h

theorem natToDigitsGo_fuel (n : Nat) : ∀ fuel k, n ≤ fuel → n ≤ k →
    natToDigitsGo fuel n = natToDigitsGo k n := by
  induction n using Nat.strong_induction_on with
  | _ n ih =>
    intro fuel k hf hk
    by_cases h : n < 10
    · rw [natToDigitsGo_small fuel n h hf, natToDigitsGo_small k n h hk]
    · rw [natToDigitsGo_big fuel n h hf, natToDigitsGo_big k n h hk]
      have hlt : n / 10 < n := Nat.div_lt_self (by omega) (by omega)
      rw [ih (n / 10) hlt (fuel - 1) (k - 1) (by omega) (by omega)]

/-- The defining recurrence of `natToDigits`. -/
theorem natToDigits_eq (n : Nat) :
    natToDigits n = if n < 10 then [48 + n] else natToDigits (n / 10) ++ [48 + n % 10] := by
  by_cases h : n < 10
  · rw [if_pos h]
    exact natToDigitsGo_small n n h (le_refl n)
  · rw [if_neg h]
    unfold natToDigits
    rw [natToDigitsGo_big n n h (le_refl n)]
    have hlt : n / 10 < n := Nat.div_lt_self (by omega) (by omega)
    rw [natToDigitsGo_fuel (n / 10) (n - 1) (n / 10) (by omega) (le_refl _)]

/-- `str(i)` for a Python int: decimal digits, `'-'`-prefixed when negative. -/
def intToDigits (i : Int) : List Nat :=
  if i < 0 then 45 :: natToDigits i.natAbs else natToDigits i.toNat

/-- `str.zfill(width)`: left-pad with `'0'` to `width`, keeping a leading
sign character in front of the padding. -/
def zfill (w : Nat) (s : List Nat) : List Nat :=
  match s with
  | c :: rest =>
    if c = 45 ∨ c = 43 then c :: (List.replicate (w - 1 - rest.length) 48 ++ rest)
    else List.replicate (w - s.length) 48 ++ s
  | [] => List.replicate w 48

def isDigit (c : Nat) : Bool := 48 ≤ c && c ≤ 57

/-- Whitespace recognized by `str.strip()` (the ASCII range; the repository
only ever puts ASCII in headers). -/
def isSpace (c : Nat) : Bool := c = 32 || c = 9 || c = 10 || c = 13 || c = 12 || c = 11

/-- `str.strip()`. -/
def pyStrip (s : List Nat) : List Nat :=
  ((s.dropWhile isSpace).reverse.dropWhile isSpace).reverse

/-- Numeric value of a digit string (leading zeros allowed). -/
def digitsVal (l : List Nat) : Nat := l.foldl (fun a c => a * 10 + (c - 48)) 0

/-- Tail of a Python int literal after its first digit: digits with single
underscores allowed between digits. -/
def digitTail : List Nat → Bool
  | [] => true
  | [c] => isDigit c
  | c :: c2 :: rest =>
    if c = 95 then isDigit c2 && digitTail rest
    else isDigit c && digitTail (c2 :: rest)

/-- Digit part of a Python int literal: nonempty, starts with a digit,
single underscores allowed between digits. -/
def digitsPartOk : List Nat → Bool
  | c :: rest => isDigit c && digitTail rest
  | [] => false

/-- `int(s)` for a Python str (base 10): strips whitespace, accepts an
optional sign, then a digit sequence with optional single grouping
underscores; `none` models a raised `ValueError`.  (CPython additionally
accepts non-ASCII decimal digits and whitespace; the codec under
verification only ever produces ASCII.) -/
def pyIntOfStr (s : List Nat) : Option Int :=
  match pyStrip s with
  | [] => none
  | c :: rest =>
    if c = 45 then
      if digitsPartOk rest then some (-(digitsVal (rest.filter (· ≠ 95)) : Int)) else none
    else if c = 43 then
      if digitsPartOk rest then some ((digitsVal (rest.filter (· ≠ 95)) : Int)) else none
    else
      if digitsPartOk (c :: rest) then
        some ((digitsVal ((c :: rest).filter (· ≠ 95)) : Int))
      else none

/-- A Python value of the kinds that flow through the packet API:
a text string (code points), a bytes object (byte values), or an int. -/
inductive PyVal where
  | str (s : List Nat)
  | bytes (b : List Nat)
  | int (i : Int)
deriving DecidableEq

/-- One byte of `repr(bytes)` under the chosen quote character. -/
def reprByteEsc (quote : Nat) (c : Nat) : List Nat :=
  if c = 92 then [92, 92]
  else if c = 9 then [92, 116]
  else if c = 10 then [92, 110]
  else if c = 13 then [92, 114]
  else if c = quote then [92, c]
  else if 32 ≤ c ∧ c ≤ 126 then [c]
  else [92, 120, (if c / 16 < 10 then 48 + c / 16 else 87 + c / 16),
        (if c % 16 < 10 then 48 + c % 16 else 87 + c % 16)]

/-- `str(b)` for a bytes object: its `repr`, `b'...'` (or `b"..."` when the
bytes contain `'` but no `"`). -/
def reprBytes (b : List Nat) : List Nat :=
  let quote : Nat := if b.contains 39 ∧ ¬ b.contains 34 then 34 else 39
  [98, quote] ++ (b.map (reprByteEsc quote)).flatten ++ [quote]

/-- `str(data)` as used by `create_packet`. -/
def pyStrOfVal : PyVal → List Nat
  | .str s => s
  | .bytes b => reprBytes b
  | .int i => intToDigits i

/-- `len(data)` for values `parse_packet` can return (a str's length in
characters, a bytes' length in bytes; `len(int)` is a Python `TypeError`
and unreachable here, mapped to 0). -/
def pyLen : PyVal → Nat
  | .str s => s.length
  | .bytes b => b.length
  | .int _ => 0

/-- `int(data)` on a parsed payload: defined for str payloads via the int
literal grammar; `int()` of a bytes/int payload as produced by
`parse_packet` is a `TypeError`/identity never exercised by the scripts we
verify, mapped to `none`/the value. -/
def pyIntOfVal : PyVal → Option Int
  | .str s => pyIntOfStr s
  | .bytes _ => none
  | .int i => some i

/-- `QUIC_API.create_packet(packet_id, data)`:
`str(packet_id).zfill(8).encode() + str(data).encode()`. -/
def create_packet (packet_id : Int) (data : PyVal) : List Nat :=
  utf8Encode (zfill 8 (intToDigits packet_id)) ++ utf8Encode (pyStrOfVal data)

/-- The two exceptions `parse_packet` can raise while reading the header:
`UnicodeDecodeError` from `.decode()` and `ValueError` from `int(...)`. -/
inductive ParseError where
  | unicodeDecodeError
  | valueError
deriving DecidableEq

instance {ε α : Type} [DecidableEq ε] [DecidableEq α] : DecidableEq (Except ε α) := fun x y =>
  match x, y with
  | .error a, .error b =>
    if h : a = b then .isTrue (by rw [h]) else .isFalse (by simp [h])
  | .ok a, .ok b =>
    if h : a = b then .isTrue (by rw [h]) else .isFalse (by simp [h])
  | .error _, .ok _ => .isFalse (by simp)
  | .ok _, .error _ => .isFalse (by simp)

/-- `QUIC_API.parse_packet(packet)`: reads the first 8 bytes as the packet
number via `int(packet[:8].decode().strip())`, and returns the remainder
decoded as text when possible, as raw bytes otherwise. -/
def parse_packet (packet : List Nat) : Except ParseError (Int × PyVal) :=
  let header := packet.take 8
  let dataB := packet.drop 8
  match utf8Decode header with
  | none => .error .unicodeDecodeError
  | some hs =>
    match pyIntOfStr hs with
    | none => .error .valueError
    | some n =>
      match utf8Decode dataB with
      | some s => .ok (n, .str s)
      | none => .ok (n, .bytes dataB)

theorem utf8Encode_ascii (s : List Nat) (h : ∀ c ∈ s, c < 0x80) : utf8Encode s = s := by
  induction s with
  | nil => rfl
  | cons c cs ih =>
    have hc : c < 0x80 := h c (List.mem_cons_self c cs)
    have hsplit : utf8Encode (c :: cs) = utf8EncodeCp c ++ utf8Encode cs := by
      simp [utf8Encode]
    rw [hsplit, ih (fun x hx => h x (List.mem_cons_of_mem c hx))]
    simp [utf8EncodeCp, hc]

theorem mem_natToDigits (n : Nat) : ∀ c ∈ natToDigits n, 48 ≤ c ∧ c ≤ 57 := by
  induction n using Nat.strong_induction_on with
  | _ n ih =>
    intro c hc
    rw [natToDigits_eq] at hc
    by_cases h : n < 10
    · rw [if_pos h] at hc
      simp only [List.mem_singleton] at hc
      omega
    · rw [if_neg h] at hc
      rcases List.mem_append.mp hc with h1 | h1
      · exact ih (n / 10) (Nat.div_lt_self (by omega) (by omega)) c h1
      · simp only [List.mem_singleton] at h1
        have := Nat.mod_lt n (show 0 < 10 by omega)
        omega

theorem natToDigits_ne_nil (n : Nat) : natToDigits n ≠ [] := by
  rw [natToDigits_eq]
  by_cases h : n < 10
  · rw [if_pos h]; simp
  · rw [if_neg h]; simp

theorem natToDigits_foldl (n : Nat) :
    ∀ a : Nat, (natToDigits n).foldl (fun x c => x * 10 + (c - 48)) a =
      a * 10 ^ (natToDigits n).length + n := by
  induction n using Nat.strong_induction_on with
  | _ n ih =>
    intro a
    rw [natToDigits_eq]
    by_cases h : n < 10
    · rw [if_pos h]
      simp only [List.foldl_cons, List.foldl_nil, List.length_singleton, pow_one]
      omega
    · rw [if_neg h]
      rw [List.foldl_append, ih (n / 10) (Nat.div_lt_self (by omega) (by omega)) a]
      simp only [List.foldl_cons, List.foldl_nil, List.length_append,
        List.length_singleton]
      rw [pow_succ]
      have hmod := Nat.mod_lt n (show 0 < 10 by omega)
      have hdiv := Nat.div_add_mod n 10
      ring_nf
      omega

theorem digitsVal_natToDigits (n : Nat) : digitsVal (natToDigits n) = n := by
  unfold digitsVal
  rw [natToDigits_foldl n 0]
  simp

theorem digitsVal_replicate_zero_append (k : Nat) (l : List Nat) :
    digitsVal (List.replicate k 48 ++ l) = digitsVal l := by
  induction k with
  | zero => simp
  | succ m ih =>
    rw [List.replicate_succ]
    simpa [digitsVal] using ih

theorem natToDigits_length_le (n k : Nat) (hk : 0 < k) (h : n < 10 ^ k) :
    (natToDigits n).length ≤ k := by
  induction k generalizing n with
  | zero => omega
  | succ m ih =>
    rw [natToDigits_eq]
    by_cases hn : n < 10
    · rw [if_pos hn]; simp
    · rw [if_neg hn]
      have hm : 0 < m := by
        by_contra hm0
        have : m = 0 := by omega
        subst this
        simp at h
        omega
      have hdiv : n / 10 < 10 ^ m := by
        rw [pow_succ] at h
        omega
      have := ih (n / 10) hm hdiv
      simp only [List.length_append, List.length_singleton]
      omega

theorem natToDigits_length_gt (n k : Nat) (h : 10 ^ k ≤ n) :
    k < (natToDigits n).length := by
  induction k generalizing n with
  | zero =>
    have := natToDigits_ne_nil n
    cases hne : natToDigits n with
    | nil => exact absurd hne this
    | cons c rest => simp
  | succ m ih =>
    rw [natToDigits_eq]
    have hn : ¬ n < 10 := by
      have h10 : (10:Nat) ≤ 10 ^ (m + 1) := by
        calc (10:Nat) = 10 ^ 1 := (pow_one 10).symm
        _ ≤ 10 ^ (m + 1) := Nat.pow_le_pow_right (by omega) (by omega)
      omega
    rw [if_neg hn]
    have hdiv : 10 ^ m ≤ n / 10 := by
      rw [pow_succ] at h
      omega
    have := ih (n / 10) hdiv
    simp only [List.length_append, List.length_singleton]
    omega

theorem digitTail_all_digits (l : List Nat) (h : ∀ c ∈ l, isDigit c) :
    digitTail l = true := by
  induction l with
  | nil => rfl
  | cons c rest ih =>
    cases rest with
    | nil =>
      show digitTail [c] = true
      simpa [digitTail] using h c (by simp)
    | cons c2 rest2 =>
      have hc : isDigit c := h c (by simp)
      have h95 : c ≠ 95 := by
        simp only [isDigit, decide_eq_true_eq, Bool.and_eq_true] at hc
        omega
      show digitTail (c :: c2 :: rest2) = true
      rw [digitTail, if_neg h95]
      have htail : digitTail (c2 :: rest2) = true :=
        ih (fun x hx => h x (List.mem_cons_of_mem c hx))
      rw [hc, htail]
      rfl

theorem digitsPartOk_all_digits (l : List Nat) (hne : l ≠ [])
    (h : ∀ c ∈ l, isDigit c) : digitsPartOk l = true := by
  cases l with
  | nil => exact absurd rfl hne
  | cons c rest =>
    have hc := h c (by simp)
    have ht := digitTail_all_digits rest (fun x hx => h x (List.mem_cons_of_mem c hx))
    simp [digitsPartOk, hc, ht]

theorem pyStrip_no_space (l : List Nat) (h : ∀ c ∈ l, isSpace c = false) :
    pyStrip l = l := by
  have drop_id : ∀ m : List Nat, (∀ c ∈ m, isSpace c = false) →
      m.dropWhile isSpace = m := by
    intro m hm
    cases m with
    | nil => rfl
    | cons c rest =>
      rw [List.dropWhile_cons, hm c (by simp)]
      simp
  rw [pyStrip, drop_id l h,
    drop_id l.reverse (fun c hc => h c (List.mem_reverse.mp hc)), List.reverse_reverse]

theorem filter_ne95_all_digits (l : List Nat) (h : ∀ c ∈ l, isDigit c) :
    l.filter (· ≠ 95) = l := by
  apply List.filter_eq_self.mpr
  intro c hc
  have h2 := h c hc
  simp only [isDigit, Bool.and_eq_true, decide_eq_true_eq] at h2
  have : c ≠ 95 := by omega
  simp [this]

/-- `int(s)` on a pure digit string (leading zeros allowed) yields its value. -/
theorem pyIntOfStr_digits (l : List Nat) (hne : l ≠ []) (h : ∀ c ∈ l, isDigit c) :
    pyIntOfStr l = some ((digitsVal l : Nat) : Int) := by
  have hnospace : ∀ c ∈ l, isSpace c = false := by
    intro c hc
    have h2 := h c hc
    simp only [isDigit, Bool.and_eq_true, decide_eq_true_eq] at h2
    simp only [isSpace, Bool.or_eq_false_iff, decide_eq_false_iff_not]
    omega
  cases hl : l with
  | nil => exact absurd hl hne
  | cons c rest =>
    subst hl
    have hc : isDigit c := h c (by simp)
    have hc' : 48 ≤ c ∧ c ≤ 57 := by
      simpa [isDigit, Bool.and_eq_true, decide_eq_true_eq] using hc
    have h45 : ¬ c = 45 := by omega
    have h43 : ¬ c = 43 := by omega
    have hok := digitsPartOk_all_digits (c :: rest) (by simp) h
    have hfil := filter_ne95_all_digits (c :: rest) h
    simp only [pyIntOfStr, pyStrip_no_space _ hnospace, h45, h43, hok, hfil,
      if_true, if_false, ite_true, ite_false]

theorem intToDigits_natCast (n : Nat) : intToDigits (n : Int) = natToDigits n := by
  rw [intToDigits, if_neg (by omega : ¬ (n : Int) < 0)]
  simp

theorem zfill_digits (w n : Nat) :
    zfill w (natToDigits n) =
      List.replicate (w - (natToDigits n).length) 48 ++ natToDigits n := by
  cases hne : natToDigits n with
  | nil => exact absurd hne (natToDigits_ne_nil n)
  | cons c rest =>
    have hc : 48 ≤ c ∧ c ≤ 57 :=
      mem_natToDigits n c (by rw [hne]; exact List.mem_cons_self c rest)
    rw [zfill, if_neg (by omega : ¬ (c = 45 ∨ c = 43))]

theorem mem_zfill_digits (w n : Nat) :
    ∀ c ∈ zfill w (natToDigits n), 48 ≤ c ∧ c ≤ 57 := by
  rw [zfill_digits]
  intro c hc
  rcases List.mem_append.mp hc with h1 | h1
  · have := List.eq_of_mem_replicate h1
    omega
  · exact mem_natToDigits n c h1

theorem zfill_digits_length (w n : Nat) (h : (natToDigits n).length ≤ w) :
    (zfill w (natToDigits n)).length = w := by
  rw [zfill_digits, List.length_append, List.length_replicate]
  omega

theorem pyIntOfStr_zfill_digits (w n : Nat) :
    pyIntOfStr (zfill w (natToDigits n)) = some ((n : Nat) : Int) := by
  rw [zfill_digits]
  have hdig : ∀ c ∈ List.replicate (w - (natToDigits n).length) 48 ++ natToDigits n,
      isDigit c := by
    intro c hc
    rcases List.mem_append.mp hc with h1 | h1
    · have := List.eq_of_mem_replicate h1
      simp [isDigit, this]
    · have := mem_natToDigits n c h1
      simp only [isDigit, Bool.and_eq_true, decide_eq_true_eq]
      omega
  rw [pyIntOfStr_digits _ (by simp [natToDigits_ne_nil n]) hdig,
    digitsVal_replicate_zero_append, digitsVal_natToDigits]

/-- For a sequence number of at most 8 digits, `create_packet`'s header is
the zero-padded 8-character decimal form and the whole packet is that
header followed by the encoded payload. -/
theorem create_packet_eq (n : Nat) (data : PyVal) :
    create_packet (n : Int) data =
      zfill 8 (natToDigits n) ++ utf8Encode (pyStrOfVal data) := by
  rw [create_packet, intToDigits_natCast,
    utf8Encode_ascii _ (fun c hc => by have := mem_zfill_digits 8 n c hc; omega)]

/--
C1 (amended to text payloads): for every sequence number `n` in
`[0, 99999999]` and every text payload `p` (any encodable str),
`parse_packet(create_packet(n, p))` returns exactly `(n, p)`.  For `bytes`
payloads the round trip fails because `create_packet` applies `str(...)`
to the payload, embedding its `repr` (see the counterexample). -/
theorem C1_codec_roundtrip_text (n : Nat) (hn : n ≤ 99999999) (s : List Nat)
    (hs : ∀ c ∈ s, ValidCp c) :
    parse_packet (create_packet (n : Int) (PyVal.str s)) =
      .ok ((n : Int), PyVal.str s) := by
  have hlen : (natToDigits n).length ≤ 8 :=
    natToDigits_length_le n 8 (by omega) (by omega)
  have hhead : (zfill 8 (natToDigits n)).length = 8 := zfill_digits_length 8 n hlen
  rw [create_packet_eq]
  show parse_packet _ = _
  rw [parse_packet]
  have htake : (zfill 8 (natToDigits n) ++ utf8Encode s).take 8 =
      zfill 8 (natToDigits n) := by
    rw [List.take_append_of_le_length (by omega), List.take_of_length_le (by omega)]
  have hdrop : (zfill 8 (natToDigits n) ++ utf8Encode s).drop 8 = utf8Encode s := by
    have hd := List.drop_left (zfill 8 (natToDigits n)) (utf8Encode s)
    rwa [hhead] at hd
  simp only [htake, hdrop,
    utf8Decode_ascii _ (fun c hc => by have := mem_zfill_digits 8 n c hc; omega),
    show pyStrOfVal (PyVal.str s) = s from rfl,
    pyIntOfStr_zfill_digits 8 n, utf8Decode_utf8Encode s hs]

/-- Witness for C1: a concrete instance of the round trip. -/
theorem C1_codec_roundtrip_text_witness :
    (7 : Nat) ≤ 99999999 ∧ (∀ c ∈ [97, 98], ValidCp c) ∧
      parse_packet (create_packet ((7 : Nat) : Int) (PyVal.str [97, 98])) =
        .ok (((7 : Nat) : Int), PyVal.str [97, 98]) :=
  ⟨by decide, by decide, C1_codec_roundtrip_text 7 (by decide) [97, 98] (by decide)⟩

/-- Counterexample to C1 as stated: for the bytes payload `b''`,
`create_packet` embeds `str(b'')`, i.e. the three characters `b''`, and
`parse_packet` hands back that text, not the original bytes. -/
theorem C1_codec_roundtrip_bytes_counterexample :
    parse_packet (create_packet ((0 : Nat) : Int) (PyVal.bytes [])) =
        .ok (((0 : Nat) : Int), PyVal.str [98, 39, 39]) ∧
      PyVal.str [98, 39, 39] ≠ PyVal.bytes [] := by
  constructor
  · decide
  · decide

/-- The spec's notion of a header holding a valid *non-negative* decimal
integer literal: the first 8 bytes decode as text whose stripped form is a
nonempty run of decimal digits (modelled from the spec, for comparison
with what `parse_packet` actually accepts). -/
def nonNegIntLiteral (header : List Nat) : Bool :=
  match utf8Decode header with
  | none => false
  | some hs => decide (pyStrip hs ≠ []) && (pyStrip hs).all isDigit

/-- What `int(...)` actually accepts: an optional sign followed by the
digit part. -/
def signedIntLiteral : List Nat → Bool
  | [] => false
  | c :: rest =>
    if c = 45 then digitsPartOk rest
    else if c = 43 then digitsPartOk rest
    else digitsPartOk (c :: rest)

theorem pyIntOfStr_isSome (s : List Nat) :
    (pyIntOfStr s).isSome = signedIntLiteral (pyStrip s) := by
  rw [pyIntOfStr]
  cases hps : pyStrip s with
  | nil => rfl
  | cons c rest =>
    by_cases h45 : c = 45
    · subst h45
      cases hd : digitsPartOk rest <;> simp [signedIntLiteral, hd]
    · by_cases h43 : c = 43
      · subst h43
        cases hd : digitsPartOk rest <;> simp [signedIntLiteral, hd]
      · cases hd : digitsPartOk (c :: rest) <;>
          simp [signedIntLiteral, h45, h43, hd]

/--
C4 (amended): `parse_packet` raises (an error propagates to the caller)
exactly when the first 8 bytes do not decode to text whose stripped form
is a valid **signed** Python int literal; contrary to the claim, a
negative header such as `b"-0000001"` is accepted by `int(...)` and
parses to `-1` without any error (see the counterexample). -/
theorem C4_malformed_header_iff (packet : List Nat) :
    (∃ e, parse_packet packet = .error e) ↔
      ¬ (∃ hs, utf8Decode (packet.take 8) = some hs ∧
          signedIntLiteral (pyStrip hs) = true) := by
  rw [parse_packet]
  cases hdec : utf8Decode (packet.take 8) with
  | none =>
    simp only [hdec]
    constructor
    · rintro - ⟨hs, hhs, -⟩
      simp [hdec] at hhs
    · intro _
      exact ⟨.unicodeDecodeError, rfl⟩
  | some hs =>
    have hiff := pyIntOfStr_isSome hs
    cases hint : pyIntOfStr hs with
    | none =>
      simp only [hdec, hint]
      rw [hint] at hiff
      simp only [Option.isSome_none] at hiff
      constructor
      · rintro - ⟨hs', hhs', hlit'⟩
        injection hhs' with hxx
        subst hxx
        rw [← hiff] at hlit'
        exact Bool.false_ne_true hlit'
      · intro _
        exact ⟨.valueError, rfl⟩
    | some n =>
      simp only [hdec, hint]
      rw [hint] at hiff
      simp only [Option.isSome_some] at hiff
      constructor
      · intro ⟨e, he⟩
        cases hpay : utf8Decode (packet.drop 8) <;> simp [hpay] at he
      · intro hno
        exact absurd ⟨hs, rfl, hiff.symm⟩ hno

/-- Counterexample to C4 as stated: the header `b"-0000001"` is not a
valid non-negative integer literal, yet `parse_packet` succeeds and
returns sequence number `-1` instead of failing. -/
theorem C4_negative_header_counterexample :
    nonNegIntLiteral (([45, 48, 48, 48, 48, 48, 48, 49] ++ [120, 121]).take 8) = false ∧
      parse_packet ([45, 48, 48, 48, 48, 48, 48, 49] ++ [120, 121]) =
        .ok (-1, PyVal.str [120, 121]) := by
  constructor
  · decide
  · decide

/--
C5 (amended): `create_packet` never fails on an oversized sequence
number; for `n > 99999999` the `zfill(8)` padding is empty and the packet
silently begins with all the digits of `n` — a header strictly longer
than 8 characters. -/
theorem C5_encode_overflow_silent (n : Nat) (hn : 99999999 < n) (data : PyVal) :
    create_packet (n : Int) data = natToDigits n ++ utf8Encode (pyStrOfVal data) ∧
      8 < (natToDigits n).length := by
  have hgt : 8 < (natToDigits n).length := natToDigits_length_gt n 8 (by omega)
  refine ⟨?_, hgt⟩
  rw [create_packet_eq, zfill_digits]
  have h0 : 8 - (natToDigits n).length = 0 := by omega
  rw [h0]
  simp

/-- Witness for C5 (amended) at `n = 100000000`. -/
theorem C5_encode_overflow_silent_witness :
    99999999 < 100000000 ∧
      (create_packet ((100000000 : Nat) : Int) (PyVal.str []) =
          natToDigits 100000000 ++ utf8Encode (pyStrOfVal (PyVal.str [])) ∧
        8 < (natToDigits 100000000).length) :=
  ⟨by decide, C5_encode_overflow_silent 100000000 (by decide) (PyVal.str [])⟩

/-- Counterexample to C5 as stated: `create_packet(100000000, '')` does
not fail; it returns the 9-character packet `b"100000000"`, whose header
part is longer than 8 characters. -/
theorem C5_encode_overflow_counterexample :
    create_packet ((100000000 : Nat) : Int) (PyVal.str []) =
        [49, 48, 48, 48, 48, 48, 48, 48, 48] ∧
      8 < (create_packet ((100000000 : Nat) : Int) (PyVal.str [])).length := by
  constructor
  · decide
  · decide

/-! ### `StreamIn` (ReliableChannelReceiver) -/

/-- The reserved payload literal `"EOF"`. -/
def eofStr : List Nat := [69, 79, 70]

/-- The reserved payload literal `"Syn"`. -/
def synStr : List Nat := [83, 121, 110]

/-- The mutable state of one `StreamIn` receiver, together with the
observable outputs it produces: the statistics reports handed to the
`add_stream_data` callback and the ACK packet numbers passed to
`send_ack`. -/
structure StreamInState where
  index : Nat
  data_size : Option Int
  total_data_received : Nat
  total_packets_received : Nat
  reports : List (Rat × Nat × Nat)
  acks : List Int
deriving DecidableEq

/-- A freshly constructed `StreamIn` (counters zero, no declared size). -/
def initStreamInState (index : Nat) : StreamInState :=
  { index := index, data_size := none, total_data_received := 0,
    total_packets_received := 0, reports := [], acks := [] }

/-- `StreamIn.receive_stream_size`: parses the size packet, stores
`int(data) + 8` (header size included) as `data_size`, then ACKs the
packet number; `none` models an exception propagating (bad packet). -/
def receive_stream_size (st : StreamInState) (raw : List Nat) : Option StreamInState :=
  match parse_packet raw with
  | .error _ => none
  | .ok (num, data) =>
    match pyIntOfVal data with
    | none => none
    | some v =>
      some { st with data_size := some (v + 8), acks := st.acks ++ [num] }

/-- `StreamIn.handle_received_data`: counts the payload, reports
`(time_elapsed, len(data), 1)` to the client callback, and ACKs. -/
def handle_received_data (st : StreamInState) (time_elapsed : Rat) (packet_num : Int)
    (data : PyVal) : StreamInState :=
  { st with
    total_data_received := st.total_data_received + pyLen data
    total_packets_received := st.total_packets_received + 1
    reports := st.reports ++ [(time_elapsed, pyLen data, 1)]
    acks := st.acks ++ [packet_num] }

/-- One observable event of the receive loop: a datagram arriving (with
the wall-clock elapsed time at which it is handled) or a local receive
timeout. -/
inductive InEvent where
  | pkt (raw : List Nat) (time : Rat)
  | timeout
deriving DecidableEq

/-- `StreamIn.receive_data` over a scripted event sequence: timeouts are
logged and the loop continues; a parse failure (`except Exception`)
breaks the loop; payload `'EOF'` breaks the loop without counting;
anything else is handled and acknowledged. -/
def receive_data (st : StreamInState) : List InEvent → StreamInState
  | [] => st
  | .timeout :: rest => receive_data st rest
  | .pkt raw t :: rest =>
    match parse_packet raw with
    | .error _ => st
    | .ok (num, data) =>
      if data = PyVal.str eofStr then st
      else receive_data (handle_received_data st t num data) rest

/-- One scripted data packet: the raw datagram plus the time at which it
is handled and its parse result. -/
structure ScriptedPacket where
  raw : List Nat
  time : Rat
  num : Int
  payload : PyVal
deriving DecidableEq

/-- A well-formed non-EOF data packet script entry. -/
def ScriptedPacket.wf (p : ScriptedPacket) : Prop :=
  parse_packet p.raw = .ok (p.num, p.payload) ∧ p.payload ≠ PyVal.str eofStr

instance (p : ScriptedPacket) : Decidable p.wf := by unfold ScriptedPacket.wf; infer_instance

theorem receive_data_script_totals (eofRaw : List Nat) (eofT : Rat) (eofNum : Int)
    (heof : parse_packet eofRaw = .ok (eofNum, PyVal.str eofStr)) :
    ∀ (script : List ScriptedPacket), (∀ p ∈ script, p.wf) → ∀ st : StreamInState,
      (receive_data st (script.map (fun p => InEvent.pkt p.raw p.time) ++
          [InEvent.pkt eofRaw eofT])).total_packets_received =
          st.total_packets_received + script.length ∧
      (receive_data st (script.map (fun p => InEvent.pkt p.raw p.time) ++
          [InEvent.pkt eofRaw eofT])).total_data_received =
          st.total_data_received + (script.map (fun p => pyLen p.payload)).sum := by
  intro script
  induction script with
  | nil =>
    intro _ st
    simp only [List.map_nil, List.nil_append, receive_data, heof, if_pos rfl]
    constructor <;> simp
  | cons p rest ih =>
    intro hwf st
    obtain ⟨hparse, hnoeof⟩ := hwf p (List.mem_cons_self p rest)
    simp only [List.map_cons, List.cons_append, receive_data, hparse, if_neg hnoeof,
      List.append_eq]
    obtain ⟨h1, h2⟩ := ih (fun q hq => hwf q (List.mem_cons_of_mem p hq))
      (handle_received_data st p.time p.num p.payload)
    rw [h1, h2]
    simp only [handle_received_data, List.length_cons, List.map_cons, List.sum_cons]
    constructor <;> omega

/--
C2: a `StreamIn` receiver fed a scripted sequence of `N` non-EOF data
packets followed by a packet whose payload is `"EOF"` ends with
`total_packets_received = N` and `total_data_received` equal to the sum
of the `N` payload lengths; the EOF packet is not counted. -/
theorem C2_exactly_once_accounting (idx : Nat) (script : List ScriptedPacket)
    (hwf : ∀ p ∈ script, p.wf) (eofRaw : List Nat) (eofT : Rat) (eofNum : Int)
    (heof : parse_packet eofRaw = .ok (eofNum, PyVal.str eofStr)) :
    (receive_data (initStreamInState idx)
        (script.map (fun p => InEvent.pkt p.raw p.time) ++
          [InEvent.pkt eofRaw eofT])).total_packets_received = script.length ∧
    (receive_data (initStreamInState idx)
        (script.map (fun p => InEvent.pkt p.raw p.time) ++
          [InEvent.pkt eofRaw eofT])).total_data_received =
        (script.map (fun p => pyLen p.payload)).sum := by
  have := receive_data_script_totals eofRaw eofT eofNum heof script hwf
    (initStreamInState idx)
  simpa [initStreamInState] using this

/-- Witness for C2: two data packets (`"ab"`, then `"xyz"`) followed by
`"EOF"`; totals are 2 packets and 5 bytes. -/
theorem C2_exactly_once_accounting_witness :
    (∀ p ∈ [ScriptedPacket.mk (create_packet 1 (PyVal.str [97, 98])) 1 1
              (PyVal.str [97, 98]),
            ScriptedPacket.mk (create_packet 2 (PyVal.str [120, 121, 122])) 2 2
              (PyVal.str [120, 121, 122])], p.wf) ∧
    parse_packet (create_packet 3 (PyVal.str eofStr)) = .ok (3, PyVal.str eofStr) ∧
    (receive_data (initStreamInState 1)
        (([ScriptedPacket.mk (create_packet 1 (PyVal.str [97, 98])) 1 1
              (PyVal.str [97, 98]),
           ScriptedPacket.mk (create_packet 2 (PyVal.str [120, 121, 122])) 2 2
              (PyVal.str [120, 121, 122])].map
            (fun p => InEvent.pkt p.raw p.time)) ++
          [InEvent.pkt (create_packet 3 (PyVal.str eofStr)) 3])).total_packets_received = 2 ∧
    (receive_data (initStreamInState 1)
        (([ScriptedPacket.mk (create_packet 1 (PyVal.str [97, 98])) 1 1
              (PyVal.str [97, 98]),
           ScriptedPacket.mk (create_packet 2 (PyVal.str [120, 121, 122])) 2 2
              (PyVal.str [120, 121, 122])].map
            (fun p => InEvent.pkt p.raw p.time)) ++
          [InEvent.pkt (create_packet 3 (PyVal.str eofStr)) 3])).total_data_received = 5 := by
  refine ⟨by decide, by decide, ?_⟩
  have h := C2_exactly_once_accounting 1
    [ScriptedPacket.mk (create_packet 1 (PyVal.str [97, 98])) 1 1 (PyVal.str [97, 98]),
     ScriptedPacket.mk (create_packet 2 (PyVal.str [120, 121, 122])) 2 2
       (PyVal.str [120, 121, 122])]
    (by decide) (create_packet 3 (PyVal.str eofStr)) 3 3 (by decide)
  exact ⟨h.1, by rw [h.2]; decide⟩

/-- The dictionary returned by `StreamIn.get_stats`. -/
structure StreamInStats where
  total_time : Rat
  stream_index : Nat
  total_data_received : Nat
  total_packets_received : Nat
  data_size : Option Int
  bytes_per_second : Rat
  packets_per_second : Rat
deriving DecidableEq

/-- `StreamIn.get_stats`: the elapsed wall-clock time
(`time.time() - global_start_time`) is an input; both rates fall back to
0 when the elapsed time is not positive. -/
def get_stats (st : StreamInState) (elapsed_time : Rat) : StreamInStats :=
  { total_time := elapsed_time
    stream_index := st.index
    total_data_received := st.total_data_received
    total_packets_received := st.total_packets_received
    data_size := st.data_size
    bytes_per_second :=
      if 0 < elapsed_time then (st.total_data_received : Rat) / elapsed_time else 0
    packets_per_second :=
      if 0 < elapsed_time then (st.total_packets_received : Rat) / elapsed_time else 0 }

/--
C7 (amended): after the size exchange, `get_stats` reports the elapsed
time, the stored totals, and rates equal to total divided by elapsed time
when the elapsed time is positive and 0 otherwise — but the reported
`data_size` is the sender-declared value **plus 8** (the receiver stores
`int(data) + 8` to include the header), not the declared value itself. -/
theorem C7_stats_snapshot (st : StreamInState) (raw : List Nat) (num : Int)
    (data : PyVal) (v : Int) (hparse : parse_packet raw = .ok (num, data))
    (hint : pyIntOfVal data = some v) (elapsed : Rat) :
    receive_stream_size st raw =
        some { st with data_size := some (v + 8), acks := st.acks ++ [num] } ∧
      get_stats { st with data_size := some (v + 8), acks := st.acks ++ [num] } elapsed =
        { total_time := elapsed
          stream_index := st.index
          total_data_received := st.total_data_received
          total_packets_received := st.total_packets_received
          data_size := some (v + 8)
          bytes_per_second :=
            if 0 < elapsed then (st.total_data_received : Rat) / elapsed else 0
          packets_per_second :=
            if 0 < elapsed then (st.total_packets_received : Rat) / elapsed else 0 } := by
  constructor
  · rw [receive_stream_size, hparse]
    simp only [hint]
  · rfl

/-- Witness for C7 (amended): declared size 100 at elapsed time 2. -/
theorem C7_stats_snapshot_witness :
    parse_packet (create_packet 0 (PyVal.str [49, 48, 48])) =
        .ok (0, PyVal.str [49, 48, 48]) ∧
      pyIntOfVal (PyVal.str [49, 48, 48]) = some 100 ∧
      receive_stream_size (initStreamInState 1) (create_packet 0 (PyVal.str [49, 48, 48])) =
        some { initStreamInState 1 with data_size := some 108, acks := [0] } ∧
      (get_stats { initStreamInState 1 with data_size := some 108, acks := [0] } 2).data_size =
        some 108 := by
  refine ⟨by decide, by decide, ?_, by decide⟩
  have h := C7_stats_snapshot (initStreamInState 1)
    (create_packet 0 (PyVal.str [49, 48, 48])) 0 (PyVal.str [49, 48, 48]) 100
    (by decide) (by decide) 2
  exact h.1

/-- Counterexample to C7 as stated: the sender declares size 100, but the
receiver's `get_stats` reports `data_size = 108`, not the declared 100. -/
theorem C7_data_size_counterexample :
    (receive_stream_size (initStreamInState 1)
        (create_packet 0 (PyVal.str [49, 48, 48]))).map
        (fun st => (get_stats st 2).data_size) = some (some 108) ∧
      (some (108 : Int) : Option Int) ≠ some 100 := by
  constructor
  · decide
  · decide

/-! ### `StreamOut` (ReliableChannelSender) -/

/-- The mutable state of one `StreamOut` sender relevant to the
handshake and the stop-and-wait loop; `sent` records the packets handed
to `sendto`, in order; peer addresses are modelled opaquely as `Nat`. -/
structure StreamOutState where
  packet_num : Int
  client_address : Option Nat
  data_size : Int
  sent : List (List Nat)
deriving DecidableEq

/-- `StreamOut.send_packet(packet_data)`: transmit
`create_packet(self.packet_num, packet_data)` to the client. -/
def send_packet (st : StreamOutState) (packet_data : PyVal) : StreamOutState :=
  { st with sent := st.sent ++ [create_packet st.packet_num packet_data] }

/-- One observable event of the ACK wait loop: a receive timeout, or an
ACK datagram arriving from some address. -/
inductive AckEvent where
  | timeout
  | ack (raw : List Nat) (addr : Nat)
deriving DecidableEq

def AckEvent.isTimeout : AckEvent → Bool
  | .timeout => true
  | .ack _ _ => false

/-- How one run of the ACK wait loop ended. -/
inductive AckOutcome where
  | waiting
  | advanced
  | raised
deriving DecidableEq

/-- `StreamOut.wait_for_ack_with_retry(packet_data)` over a scripted
event sequence: on timeout, resend the identical chunk at the current
sequence number and keep waiting; on an ACK, record the source address,
parse it (a parse error propagates), advance and break if the sequence
number matches, otherwise just log and keep waiting. -/
def wait_for_ack_with_retry (packet_data : PyVal) (st : StreamOutState) :
    List AckEvent → StreamOutState × AckOutcome
  | [] => (st, .waiting)
  | .timeout :: rest =>
    wait_for_ack_with_retry packet_data (send_packet st packet_data) rest
  | .ack raw addr :: rest =>
    let st1 := { st with client_address := some addr }
    match parse_packet raw with
    | .error _ => (st1, .raised)
    | .ok (num, _) =>
      if num = st.packet_num then
        ({ st1 with packet_num := st.packet_num + 1 }, .advanced)
      else wait_for_ack_with_retry packet_data st1 rest

/-- An event that does not deliver an acknowledgment matching the current
sequence number `k`: a timeout, or an ACK that parses to a different
sequence number. -/
def ackNonMatching (k : Int) : AckEvent → Bool
  | .timeout => true
  | .ack raw _ =>
    match parse_packet raw with
    | .ok (num, _) => num ≠ k
    | .error _ => false

/-- The client address recorded after a sequence of ACK-loop events. -/
def lastAckAddr : List AckEvent → Option Nat → Option Nat
  | [], a => a
  | .timeout :: rest, a => lastAckAddr rest a
  | .ack _ addr :: rest, _ => lastAckAddr rest (some addr)

theorem cons_replicate_swap {α : Type} (x : α) (n : Nat) :
    x :: List.replicate n x = List.replicate n x ++ [x] := by
  rw [← List.replicate_succ, List.replicate_succ']

theorem wait_retry_nonmatching (packet_data : PyVal) (events : List AckEvent) :
    ∀ st : StreamOutState, (∀ e ∈ events, ackNonMatching st.packet_num e = true) →
      wait_for_ack_with_retry packet_data st events =
        ({ packet_num := st.packet_num
           client_address := lastAckAddr events st.client_address
           data_size := st.data_size
           sent := st.sent ++ List.replicate (events.countP AckEvent.isTimeout)
             (create_packet st.packet_num packet_data) }, .waiting) := by
  induction events with
  | nil =>
    intro st _
    simp [wait_for_ack_with_retry, lastAckAddr]
  | cons e rest ih =>
    intro st hnm
    cases e with
    | timeout =>
      rw [wait_for_ack_with_retry]
      rw [ih (send_packet st packet_data)
        (fun x hx => hnm x (List.mem_cons_of_mem _ hx))]
      simp only [send_packet, lastAckAddr, List.countP_cons, AckEvent.isTimeout,
        cond_true, List.append_assoc]
      rw [List.replicate_add]
      simp [List.singleton_append, List.replicate_succ, cons_replicate_swap]
    | ack raw addr =>
      have hne := hnm (.ack raw addr) (List.mem_cons_self _ _)
      rw [wait_for_ack_with_retry]
      cases hp : parse_packet raw with
      | error e =>
        rw [ackNonMatching, hp] at hne
        exact absurd hne (by simp)
      | ok nd =>
        obtain ⟨num, d⟩ := nd
        rw [ackNonMatching, hp] at hne
        have hnum : num ≠ st.packet_num := by simpa using hne
        simp only [hp, if_neg hnum]
        rw [ih { st with client_address := some addr }
          (fun x hx => hnm x (List.mem_cons_of_mem _ hx))]
        simp [lastAckAddr, List.countP_cons, AckEvent.isTimeout]

theorem wait_retry_match_after (packet_data : PyVal) (events : List AckEvent)
    (raw : List Nat) (addr : Nat) (num : Int) (d : PyVal) :
    ∀ st : StreamOutState, (∀ e ∈ events, ackNonMatching st.packet_num e = true) →
      parse_packet raw = .ok (num, d) → num = st.packet_num →
      wait_for_ack_with_retry packet_data st (events ++ [.ack raw addr]) =
        ({ packet_num := st.packet_num + 1
           client_address := some addr
           data_size := st.data_size
           sent := st.sent ++ List.replicate (events.countP AckEvent.isTimeout)
             (create_packet st.packet_num packet_data) }, .advanced) := by
  induction events with
  | nil =>
    intro st _ hp hm
    rw [List.nil_append, wait_for_ack_with_retry]
    simp only [hp, if_pos hm]
    simp [List.countP_nil]
  | cons e rest ih =>
    intro st hnm hp hm
    cases e with
    | timeout =>
      rw [List.cons_append, wait_for_ack_with_retry]
      rw [ih (send_packet st packet_data)
        (fun x hx => hnm x (List.mem_cons_of_mem _ hx)) hp hm]
      simp only [send_packet, List.countP_cons, AckEvent.isTimeout, cond_true,
        List.append_assoc]
      rw [List.replicate_add]
      simp [List.singleton_append, List.replicate_succ, cons_replicate_swap]
    | ack araw aaddr =>
      have hne := hnm (.ack araw aaddr) (List.mem_cons_self _ _)
      rw [List.cons_append, wait_for_ack_with_retry]
      cases hpa : parse_packet araw with
      | error e =>
        rw [ackNonMatching, hpa] at hne
        exact absurd hne (by simp)
      | ok nd =>
        obtain ⟨anum, ad⟩ := nd
        rw [ackNonMatching, hpa] at hne
        have hnum : anum ≠ st.packet_num := by simpa using hne
        simp only [hpa, if_neg hnum]
        rw [ih { st with client_address := some aaddr }
          (fun x hx => hnm x (List.mem_cons_of_mem _ hx)) hp hm]
        simp [List.countP_cons, AckEvent.isTimeout]

/--
C3: while only timeouts and mismatched-sequence acknowledgments arrive,
`wait_for_ack_with_retry` never advances the sequence counter (outcome
stays `waiting`), resends the byte-identical chunk
`create_packet(k, packet_data)` once per timeout (and never on a
mismatched acknowledgment); appending an acknowledgment that parses to
the current sequence number makes it increment the counter and break out,
with no further resend. -/
theorem C3_stop_and_wait_retransmission (packet_data : PyVal) (st : StreamOutState)
    (events : List AckEvent) (raw : List Nat) (addr : Nat) (num : Int) (d : PyVal)
    (hnm : ∀ e ∈ events, ackNonMatching st.packet_num e = true)
    (hparse : parse_packet raw = .ok (num, d)) (hmatch : num = st.packet_num) :
    wait_for_ack_with_retry packet_data st events =
        ({ packet_num := st.packet_num
           client_address := lastAckAddr events st.client_address
           data_size := st.data_size
           sent := st.sent ++ List.replicate (events.countP AckEvent.isTimeout)
             (create_packet st.packet_num packet_data) }, .waiting) ∧
      wait_for_ack_with_retry packet_data st (events ++ [.ack raw addr]) =
        ({ packet_num := st.packet_num + 1
           client_address := some addr
           data_size := st.data_size
           sent := st.sent ++ List.replicate (events.countP AckEvent.isTimeout)
             (create_packet st.packet_num packet_data) }, .advanced) :=
  ⟨wait_retry_nonmatching packet_data events st hnm,
   wait_retry_match_after packet_data events raw addr num d st hnm hparse hmatch⟩

/-- Witness for C3: chunk `"hi"` at sequence 5; a timeout, a mismatched
ACK (sequence 3), and another timeout leave the sender waiting at
sequence 5 having resent the identical chunk twice; the matching ACK then
advances it to 6. -/
theorem C3_stop_and_wait_retransmission_witness :
    (∀ e ∈ [AckEvent.timeout, AckEvent.ack (create_packet 3 (PyVal.str [])) 2,
            AckEvent.timeout],
        ackNonMatching (5 : Int) e = true) ∧
    parse_packet (create_packet 5 (PyVal.str [])) = .ok (5, PyVal.str []) ∧
    wait_for_ack_with_retry (PyVal.str [104, 105])
        ⟨5, some 1, 50, []⟩
        [AckEvent.timeout, AckEvent.ack (create_packet 3 (PyVal.str [])) 2,
         AckEvent.timeout] =
      (⟨5, some 2, 50,
        [create_packet 5 (PyVal.str [104, 105]), create_packet 5 (PyVal.str [104, 105])]⟩,
       .waiting) ∧
    wait_for_ack_with_retry (PyVal.str [104, 105])
        ⟨5, some 1, 50, []⟩
        ([AckEvent.timeout, AckEvent.ack (create_packet 3 (PyVal.str [])) 2,
          AckEvent.timeout] ++ [AckEvent.ack (create_packet 5 (PyVal.str [])) 9]) =
      (⟨6, some 9, 50,
        [create_packet 5 (PyVal.str [104, 105]), create_packet 5 (PyVal.str [104, 105])]⟩,
       .advanced) := by
  refine ⟨by decide, by decide, ?_, ?_⟩
  · have h := C3_stop_and_wait_retransmission (PyVal.str [104, 105])
      ⟨5, some 1, 50, []⟩
      [AckEvent.timeout, AckEvent.ack (create_packet 3 (PyVal.str [])) 2,
       AckEvent.timeout]
      (create_packet 5 (PyVal.str [])) 9 5 (PyVal.str [])
      (by decide) (by decide) (by decide)
    rw [h.1]
    decide
  · have h := C3_stop_and_wait_retransmission (PyVal.str [104, 105])
      ⟨5, some 1, 50, []⟩
      [AckEvent.timeout, AckEvent.ack (create_packet 3 (PyVal.str [])) 2,
       AckEvent.timeout]
      (create_packet 5 (PyVal.str [])) 9 5 (PyVal.str [])
      (by decide) (by decide) (by decide)
    rw [h.2]
    decide

/-- `StreamOut.wait_for_client_syn`: `recvfrom` assigns `client_address`
from whatever datagram arrives **before** the packet is parsed; a parse
failure then propagates (second component), and a payload other than
`"Syn"` only skips the log line — no check, no error. -/
def wait_for_client_syn (st : StreamOutState) (raw : List Nat) (addr : Nat) :
    StreamOutState × Option ParseError :=
  let st1 := { st with client_address := some addr }
  match parse_packet raw with
  | .error e => (st1, some e)
  | .ok _ => (st1, none)

/-- `StreamOut.send_stream_size`: transmit
`create_packet(self.packet_num, self.data_size)` to the recorded client
address; returns the datagram and its destination (`none` only if no
client address is recorded, where `sendto(..., None)` would raise). -/
def send_stream_size (st : StreamOutState) :
    StreamOutState × Option (List Nat × Nat) :=
  match st.client_address with
  | none => (st, none)
  | some addr =>
    ({ st with sent := st.sent ++ [create_packet st.packet_num (.int st.data_size)] },
     some (create_packet st.packet_num (.int st.data_size), addr))

/--
C10 (implicit): `wait_for_client_syn` records the source address of
whatever first datagram arrives as `client_address` — for every payload,
`"Syn"` or not; when the packet parses (any payload), no error is raised
at channel level, and the subsequent `send_stream_size` transmits to that
recorded address. -/
theorem C10_handshake_accepts_any_first_packet (st : StreamOutState)
    (raw : List Nat) (addr : Nat) (hok : (parse_packet raw).isOk = true) :
    (∀ raw' : List Nat, (wait_for_client_syn st raw' addr).1.client_address = some addr) ∧
      (wait_for_client_syn st raw addr).2 = none ∧
      (send_stream_size (wait_for_client_syn st raw addr).1).2 =
        some (create_packet st.packet_num (.int st.data_size), addr) := by
  refine ⟨?_, ?_, ?_⟩
  · intro raw'
    rw [wait_for_client_syn]
    cases parse_packet raw' <;> rfl
  · rw [wait_for_client_syn]
    cases hp : parse_packet raw with
    | error e => rw [hp] at hok; exact absurd hok (by simp [Except.isOk, Except.toBool])
    | ok v => simp [hp]
  · rw [wait_for_client_syn]
    cases hp : parse_packet raw with
    | error e => rw [hp] at hok; exact absurd hok (by simp [Except.isOk, Except.toBool])
    | ok v => simp [hp, send_stream_size]

/-- Witness for C10: the first datagram carries payload `"X"` (not
`"Syn"`) from address 7; the sender records address 7, raises nothing,
and sends the size packet to address 7. -/
theorem C10_handshake_accepts_any_first_packet_witness :
    (parse_packet (create_packet 0 (PyVal.str [88]))).isOk = true ∧
      (wait_for_client_syn ⟨0, none, 42, []⟩ (create_packet 0 (PyVal.str [88])) 7).2 =
        none ∧
      (send_stream_size
          (wait_for_client_syn ⟨0, none, 42, []⟩ (create_packet 0 (PyVal.str [88])) 7).1).2 =
        some (create_packet 0 (PyVal.int 42), 7) := by
  refine ⟨by decide, ?_, ?_⟩
  · exact (C10_handshake_accepts_any_first_packet ⟨0, none, 42, []⟩
      (create_packet 0 (PyVal.str [88])) 7 (by decide)).2.1
  · exact (C10_handshake_accepts_any_first_packet ⟨0, none, 42, []⟩
      (create_packet 0 (PyVal.str [88])) 7 (by decide)).2.2

/-! ### `QuicClient` statistics aggregation -/

/-- `defaultdict(int)` keyed by elapsed time, as an association list in
insertion order; `m[t] += v`. -/
def bumpInner : List (Rat × Nat) → Rat → Nat → List (Rat × Nat)
  | [], t, v => [(t, v)]
  | (t', v') :: rest, t, v =>
    if t' = t then (t', v' + v) :: rest else (t', v') :: bumpInner rest t v

/-- `defaultdict(lambda: defaultdict(int))` keyed by stream index;
`m[i][t] += v`. -/
def bumpOuter : List (Nat × List (Rat × Nat)) → Nat → Rat → Nat →
    List (Nat × List (Rat × Nat))
  | [], i, t, v => [(i, bumpInner [] t v)]
  | (i', m) :: rest, i, t, v =>
    if i' = i then (i', bumpInner m t v) :: rest
    else (i', m) :: bumpOuter rest i t v

/-- Plain dict assignment `m[i] = t`. -/
def setAssoc : List (Nat × Rat) → Nat → Rat → List (Nat × Rat)
  | [], i, t => [(i, t)]
  | (i', t') :: rest, i, t =>
    if i' = i then (i', t) :: rest else (i', t') :: setAssoc rest i t

/-- Reading a bucket with `defaultdict` semantics (missing keys are 0). -/
def innerGet : List (Rat × Nat) → Rat → Nat
  | [], _ => 0
  | (t', v) :: rest, t => if t' = t then v else innerGet rest t

/-- Reading a `(stream index, elapsed time)` bucket. -/
def bucketVal : List (Nat × List (Rat × Nat)) → Nat → Rat → Nat
  | [], _, _ => 0
  | (i', m) :: rest, i, t => if i' = i then innerGet m t else bucketVal rest i t

/-- The shared statistics maps of `QuicClient`. -/
structure QuicClientState where
  data_per_stream : List (Nat × List (Rat × Nat))
  packets_per_stream : List (Nat × List (Rat × Nat))
  time_elapsed_per_stream : List (Nat × Rat)
deriving DecidableEq

def emptyQuicClientState : QuicClientState := ⟨[], [], []⟩

/-- `QuicClient.add_stream_data(stream_index, time_elapsed, data_received,
packets_received)`. -/
def add_stream_data (st : QuicClientState) (stream_index : Nat) (time_elapsed : Rat)
    (data_received : Nat) (packets_received : Nat) : QuicClientState :=
  { data_per_stream :=
      bumpOuter st.data_per_stream stream_index time_elapsed data_received
    packets_per_stream :=
      bumpOuter st.packets_per_stream stream_index time_elapsed packets_received
    time_elapsed_per_stream :=
      setAssoc st.time_elapsed_per_stream stream_index time_elapsed }

/-- `sum(stream_data.values())` for one stream's bucket map. -/
def sumInner (m : List (Rat × Nat)) : Nat := (m.map Prod.snd).sum

/-- `sum(sum(...) for ... in d.values())`. -/
def totalOf (d : List (Nat × List (Rat × Nat))) : Nat :=
  (d.map (fun p => sumInner p.2)).sum

/-- Binary maximum on exact rationals. -/
def ratMax (a b : Rat) : Rat := if a ≤ b then b else a

/-- `max(self.time_elapsed_per_stream.values())`; `none` models the
`ValueError` Python's `max` raises on an empty dict. -/
def maxElapsed : List (Nat × Rat) → Option Rat
  | [] => none
  | (_, t) :: rest =>
    some (match maxElapsed rest with
          | none => t
          | some m => ratMax t m)

/-- `QuicClient.calculate_rates`: total data and packets over the maximum
per-stream elapsed time, both 0 when that time is not positive. -/
def calculate_rates (st : QuicClientState) : Option (Rat × Rat) :=
  match maxElapsed st.time_elapsed_per_stream with
  | none => none
  | some total_time =>
    some
      (if 0 < total_time then (totalOf st.data_per_stream : Rat) / total_time else 0,
       if 0 < total_time then (totalOf st.packets_per_stream : Rat) / total_time else 0)

theorem innerGet_bumpInner (m : List (Rat × Nat)) (t : Rat) (v : Nat) :
    innerGet (bumpInner m t v) t = innerGet m t + v := by
  induction m with
  | nil => simp [bumpInner, innerGet]
  | cons p rest ih =>
    obtain ⟨t', v'⟩ := p
    by_cases h : t' = t
    · simp [bumpInner, innerGet, h]
    · simp [bumpInner, innerGet, h, ih]

theorem bucketVal_bumpOuter (d : List (Nat × List (Rat × Nat))) (i : Nat) (t : Rat)
    (v : Nat) : bucketVal (bumpOuter d i t v) i t = bucketVal d i t + v := by
  induction d with
  | nil => simp [bumpOuter, bucketVal, innerGet_bumpInner, innerGet]
  | cons p rest ih =>
    obtain ⟨i', m⟩ := p
    by_cases h : i' = i
    · simp [bumpOuter, bucketVal, h, innerGet_bumpInner]
    · simp [bumpOuter, bucketVal, h, ih]

/-- The demonstration scenario of the spec: channel 1 reports 1000 then
1500 bytes, channel 2 reports 2000 then 2500 bytes, in two time buckets,
both finishing at elapsed time 2. -/
def demoAggState : QuicClientState :=
  add_stream_data
    (add_stream_data
      (add_stream_data
        (add_stream_data emptyQuicClientState 1 1 1000 1)
        1 2 1500 1)
      2 1 2000 1)
    2 2 2500 1

/--
C6: bucket updates are additive (a report landing on an existing
`(stream index, elapsed time)` key is summed into the bucket, not
overwritten); `calculate_rates` divides the totals by the maximum
per-channel elapsed time, returning 0 rates when that maximum is 0; and
on the spec's two-channel scenario the data rate is exactly
3500 bytes/sec (7000 bytes over elapsed time 2). -/
theorem C6_aggregate_rates :
    (∀ (st : QuicClientState) (i : Nat) (t : Rat) (v p : Nat),
        bucketVal (add_stream_data st i t v p).data_per_stream i t =
            bucketVal st.data_per_stream i t + v ∧
          bucketVal (add_stream_data st i t v p).packets_per_stream i t =
            bucketVal st.packets_per_stream i t + p) ∧
    (∀ st : QuicClientState, maxElapsed st.time_elapsed_per_stream = some 0 →
        calculate_rates st = some (0, 0)) ∧
    (∀ (st : QuicClientState) (m : Rat),
        maxElapsed st.time_elapsed_per_stream = some m → 0 < m →
        calculate_rates st =
          some ((totalOf st.data_per_stream : Rat) / m,
            (totalOf st.packets_per_stream : Rat) / m)) ∧
    calculate_rates demoAggState = some (3500, 2) := by
  refine ⟨?_, ?_, ?_, ?_⟩
  · intro st i t v p
    exact ⟨bucketVal_bumpOuter st.data_per_stream i t v,
      bucketVal_bumpOuter st.packets_per_stream i t p⟩
  · intro st h
    rw [calculate_rates, h]
    norm_num
  · intro st m h hm
    rw [calculate_rates, h]
    simp [hm]
  · norm_num [demoAggState, emptyQuicClientState, add_stream_data, bumpOuter,
      bumpInner, setAssoc, calculate_rates, maxElapsed, ratMax, totalOf, sumInner]

/-- Witness for C6: the additivity clause applied to a concrete state,
and the zero-elapsed clause applied to a state whose only report came at
elapsed time 0. -/
theorem C6_aggregate_rates_witness :
    (bucketVal (add_stream_data (add_stream_data emptyQuicClientState 1 2 5 1)
          1 2 7 1).data_per_stream 1 2 =
        bucketVal (add_stream_data emptyQuicClientState 1 2 5 1).data_per_stream 1 2
          + 7) ∧
      maxElapsed (add_stream_data emptyQuicClientState 1 0 3 1).time_elapsed_per_stream =
        some 0 ∧
      calculate_rates (add_stream_data emptyQuicClientState 1 0 3 1) = some (0, 0) := by
  refine ⟨(C6_aggregate_rates.1 (add_stream_data emptyQuicClientState 1 2 5 1) 1 2 7 1).1,
    by decide, ?_⟩
  exact C6_aggregate_rates.2.1 (add_stream_data emptyQuicClientState 1 0 3 1) (by decide)

/-! ### `QuicClient` handshake and stream setup -/

/-- Parsing a packet that carries an int payload (as the responder's
channel-count and port announcements do): the payload text is the int's
decimal digits. -/
theorem parse_create_int (n : Nat) (hn : n ≤ 99999999) (p : Nat) :
    parse_packet (create_packet (n : Int) (PyVal.int (p : Int))) =
      .ok ((n : Int), PyVal.str (natToDigits p)) := by
  have hvalid : ∀ c ∈ natToDigits p, ValidCp c := by
    intro c hc
    have := mem_natToDigits p c hc
    exact ⟨by omega, Or.inl (by omega)⟩
  have hlen : (natToDigits n).length ≤ 8 :=
    natToDigits_length_le n 8 (by omega) (by omega)
  have hhead : (zfill 8 (natToDigits n)).length = 8 := zfill_digits_length 8 n hlen
  rw [create_packet_eq]
  rw [show pyStrOfVal (PyVal.int (p : Int)) = natToDigits p by
    rw [pyStrOfVal, intToDigits_natCast]]
  rw [parse_packet]
  have htake : (zfill 8 (natToDigits n) ++ utf8Encode (natToDigits p)).take 8 =
      zfill 8 (natToDigits n) := by
    rw [List.take_append_of_le_length (by omega), List.take_of_length_le (by omega)]
  have hdrop : (zfill 8 (natToDigits n) ++ utf8Encode (natToDigits p)).drop 8 =
      utf8Encode (natToDigits p) := by
    have hd := List.drop_left (zfill 8 (natToDigits n)) (utf8Encode (natToDigits p))
    rwa [hhead] at hd
  simp only [htake, hdrop,
    utf8Decode_ascii _ (fun c hc => by have := mem_zfill_digits 8 n c hc; omega),
    pyIntOfStr_zfill_digits 8 n, utf8Decode_utf8Encode (natToDigits p) hvalid]

/-- `int(...)` applied to the text of an announced decimal value. -/
theorem pyIntOfVal_digits (p : Nat) :
    pyIntOfVal (PyVal.str (natToDigits p)) = some ((p : Nat) : Int) := by
  rw [pyIntOfVal,
    pyIntOfStr_digits _ (natToDigits_ne_nil p)
      (fun c hc => by
        have := mem_natToDigits p c hc
        simp only [isDigit, Bool.and_eq_true, decide_eq_true_eq]
        omega),
    digitsVal_natToDigits]

/-- The initiator-side state of `QuicClient` during stream setup: the
remaining responder script (datagrams still to arrive), the ACK packet
numbers sent, and the receiver tasks launched as (thread index, port). -/
structure ClientSetupState where
  script : List (List Nat)
  acks : List Int
  threads : List (Nat × Int)
deriving DecidableEq

/-- `QuicClient.receive_number_of_streams`: parse the announcement and
convert the payload with `int(...)`; `none` models a raised exception. -/
def receive_number_of_streams (raw : List Nat) : Option Int :=
  match parse_packet raw with
  | .error _ => none
  | .ok (_, data) => pyIntOfVal data

/-- `QuicClient.setup_stream`: receive the next scripted datagram, parse
`(packet_num, stream_port)`, convert the port with `int(...)`, ACK the
packet number, and hand back the port. -/
def setup_stream (st : ClientSetupState) : Option (ClientSetupState × Int) :=
  match st.script with
  | [] => none
  | raw :: rest =>
    match parse_packet raw with
    | .error _ => none
    | .ok (num, data) =>
      match pyIntOfVal data with
      | none => none
      | some port =>
        some ({ st with script := rest, acks := st.acks ++ [num] }, port)

/-- The loop body of `QuicClient.initialize_streams`: for each `i` in
`range(num_streams)`, set up stream `i` and start a receiver thread with
index `i + 1` bound to the announced port. -/
def initStreamsLoop (st : ClientSetupState) (i : Nat) : Nat → Option ClientSetupState
  | 0 => some st
  | n + 1 =>
    match setup_stream st with
    | none => none
    | some (st1, port) =>
      initStreamsLoop { st1 with threads := st1.threads ++ [(i + 1, port)] } (i + 1) n

/-- `QuicClient.initialize_streams(num_streams)`. -/
def initialize_streams (st : ClientSetupState) (num_streams : Nat) :
    Option ClientSetupState :=
  initStreamsLoop st 0 num_streams

/--
C8: with the responder announcing `channel_count = 4` and then four port
announcements tagged with sequence numbers 1..4, the initiator reads
channel count 4 and `initialize_streams` launches exactly 4 receiver
tasks, the i-th bound to the port announced for index i, acknowledging
each announcement with its packet number. -/
theorem C8_handshake_determinism (p1 p2 p3 p4 : Nat) :
    receive_number_of_streams (create_packet ((0 : Nat) : Int) (PyVal.int 4)) =
        some 4 ∧
      initialize_streams
          ⟨[create_packet ((1 : Nat) : Int) (PyVal.int (p1 : Int)),
            create_packet ((2 : Nat) : Int) (PyVal.int (p2 : Int)),
            create_packet ((3 : Nat) : Int) (PyVal.int (p3 : Int)),
            create_packet ((4 : Nat) : Int) (PyVal.int (p4 : Int))], [], []⟩ 4 =
        some ⟨[], [1, 2, 3, 4],
          [(1, (p1 : Int)), (2, (p2 : Int)), (3, (p3 : Int)), (4, (p4 : Int))]⟩ := by
  constructor
  · decide
  · have h1 := parse_create_int 1 (by omega) p1
    have h2 := parse_create_int 2 (by omega) p2
    have h3 := parse_create_int 3 (by omega) p3
    have h4 := parse_create_int 4 (by omega) p4
    simp only [initialize_streams, initStreamsLoop, setup_stream, h1, h2, h3, h4,
      pyIntOfVal_digits, List.nil_append, List.append_nil]
    norm_num

end QuicSim
